import Mathlib

/-!
Verification of the schema-qualification transformer, the expression
normalizer and the compiled-query artifact of the kysely query-builder
core, against a shallow embedding of the source.

The embedding follows these source files:
  * `src/plugin/with-schema/with-schema-transformer.ts` (WithSchemaTransformer)
  * the expression module (Expression / AliasedExpression interfaces)
  * the parse-expression module (parseExpression / parseAliasedExpression)
  * the compiled-query module (CompiledQuery.raw)
Parts of the repository that are only referenced by those files
(the generic OperationNodeTransformer engine, isOperationNodeSource,
createExpressionBuilder, createQueryId, RawNode.createWithSql) are
modelled from the specification; each such definition says so in its
doc comment.
-/

namespace Kysely

/-! ## Scope set: the JS `Set<string>` used for `#schemableIds`

A JS `Set` is insertion-ordered and duplicate-free; we model it as a
`List String` kept duplicate-free by `scopeAdd`. -/

/-- The transformer's mutable scope set `#schemableIds`, as a value. -/
abbrev SSet := List String

/-- JS `Set.has`. -/
def scopeHas (s : SSet) (x : String) : Bool :=
  s.contains x

/-- JS `Set.add`: no-op when the element is already present, otherwise
appends (JS sets are insertion-ordered). -/
def scopeAdd (s : SSet) (x : String) : SSet :=
  if s.contains x then s else s ++ [x]

/-- JS `Set.delete`. -/
def scopeDel (s : SSet) (x : String) : SSet :=
  s.erase x

/-! ## Node model

Non-recursive node kinds are plain structures; the recursive part of the
node model is the inductive `Node`. Field names follow the source. -/

/-- `IdentifierNode`: `{ kind: 'IdentifierNode', name: string }`. -/
structure IdentifierNode where
  name : String
deriving DecidableEq

/-- `SchemableIdentifierNode`:
`{ kind: 'SchemableIdentifierNode', schema?: IdentifierNode, identifier: IdentifierNode }`. -/
structure SchemableIdentifierNode where
  schema : Option IdentifierNode
  identifier : IdentifierNode
deriving DecidableEq

/-- `TableNode`: `{ kind: 'TableNode', table: SchemableIdentifierNode }`. -/
structure TableNode where
  table : SchemableIdentifierNode
deriving DecidableEq

/-- `CommonTableExpressionNameNode`:
`{ kind: 'CommonTableExpressionNameNode', table: TableNode, columns?: IdentifierNode[] }`. -/
structure CommonTableExpressionNameNode where
  table : TableNode
  columns : List IdentifierNode
deriving DecidableEq

/-- The root-operation-node kinds of the `ROOT_OPERATION_NODES` record in
`with-schema-transformer.ts`, except `RawNode`, whose distinct payload
(string fragments and parameter nodes) is the dedicated `Node.rawE`
constructor below. -/
inductive RootKind where
  | alterTable | createIndex | createSchema | createTable | createType | createView
  | deleteQuery | dropIndex | dropSchema | dropTable | dropType | dropView
  | insertQuery | selectQuery | updateQuery
deriving DecidableEq

/-- The recursive node model. Constructors:

* `schemableId` — a free-standing `SchemableIdentifierNode`;
* `tableE` — `TableNode`;
* `aliasE` — `AliasNode { node, alias }`;
* `joinE` — `JoinNode { table, on? }`;
* `cteE` — `CommonTableExpressionNode { name, expression }`;
* `withE` — `WithNode { expressions }`;
* `rawE` — `RawNode { sqlFragments, parameters }` (a root operation node);
* `rootE` — any other root operation node, with the optional fields the
  with-schema transformer probes for (`name`, `from.froms`, `into`,
  `table`, `joins`, `with`) made explicit and all remaining children in
  `others` (selections, where-clauses, ...);
* `otherE` — any other composite node, children only. -/
inductive Node where
  | schemableId (sid : SchemableIdentifierNode)
  | tableE (tbl : TableNode)
  | aliasE (node : Node) (aliasId : IdentifierNode)
  | joinE (table : Node) (onE : Option Node)
  | cteE (name : CommonTableExpressionNameNode) (expression : Node)
  | withE (expressions : List Node)
  | rawE (sqlFragments : List String) (parameters : List Node)
  | rootE (kind : RootKind) (name : Option Node) (froms : Option (List Node))
      (into : Option Node) (tableTgt : Option Node) (joins : Option (List Node))
      (withC : Option Node) (others : List Node)
  | otherE (children : List Node)

/-- `WithSchemaTransformer.#isRootOperationNode`: the kind-membership test
against `ROOT_OPERATION_NODES`. -/
def isRootOperationNode : Node → Bool
  | .rootE .. => true
  | .rawE .. => true
  | _ => false

/-! ## `WithSchemaTransformer`: scope collection -/

/-- `WithSchemaTransformer.#collectSchemableId`: add the identifier's bare
name to the accumulator unless it is already in the scope set
(`#schemableIds`). -/
def collectSchemableId (scope : SSet) (sid : SchemableIdentifierNode) (acc : SSet) : SSet :=
  if scopeHas scope sid.identifier.name then acc else scopeAdd acc sid.identifier.name

/-- The table-resolution step of
`WithSchemaTransformer.#collectSchemableIdsFromTableExpr`: a `TableNode`
itself, or an `AliasNode` directly wrapping a `TableNode`; anything else
resolves to nothing. -/
def resolveTableExpr : Node → Option TableNode
  | .tableE t => some t
  | .aliasE (.tableE t) _ => some t
  | _ => none

/-- `WithSchemaTransformer.#collectSchemableIdsFromTableExpr`. -/
def collectFromTableExpr (scope : SSet) (n : Node) (acc : SSet) : SSet :=
  match resolveTableExpr n with
  | some t => collectSchemableId scope t.table acc
  | none => acc

/-- The name a common-table-expression binds:
`expr.name.table.table.identifier.name` in
`WithSchemaTransformer.#removeCommonTableExpressionTables`. -/
def cteBoundName : Node → Option String
  | .cteE nm _ => some nm.table.table.identifier.name
  | _ => none

/-- `WithSchemaTransformer.#removeCommonTableExpressionTables`: delete each
WITH-bound name from the accumulator. -/
def removeCtes (exprs : List Node) (acc : SSet) : SSet :=
  exprs.foldl
    (fun acc e =>
      match cteBoundName e with
      | some x => scopeDel acc x
      | none => acc)
    acc

/-- The `'name' in node && node.name && SchemableIdentifierNode.is(node.name)`
step of `#collectSchemableIds`: collect the node's own name when it is
present and is a schemable identifier. -/
def collectName (scope : SSet) (name : Option Node) (acc : SSet) : SSet :=
  match name with
  | some (.schemableId sid) => collectSchemableId scope sid acc
  | _ => acc

/-- The `'from' in node && node.from` step of `#collectSchemableIds`:
collect every table expression of the FROM list. -/
def collectFroms (scope : SSet) (froms : Option (List Node)) (acc : SSet) : SSet :=
  match froms with
  | some fs => fs.foldl (fun acc f => collectFromTableExpr scope f acc) acc
  | none => acc

/-- The `'into' in node && node.into` / `'table' in node && node.table`
steps of `#collectSchemableIds`: collect a single optional table
expression target. -/
def collectOptTableExpr (scope : SSet) (o : Option Node) (acc : SSet) : SSet :=
  match o with
  | some n => collectFromTableExpr scope n acc
  | none => acc

/-- The `'joins' in node && node.joins` step of `#collectSchemableIds`:
collect `join.table` of every join. -/
def collectJoins (scope : SSet) (joins : Option (List Node)) (acc : SSet) : SSet :=
  match joins with
  | some js =>
    js.foldl
      (fun acc j =>
        match j with
        | .joinE t _ => collectFromTableExpr scope t acc
        | _ => acc)
      acc
  | none => acc

/-- The `'with' in node && node.with` step of `#collectSchemableIds`. -/
def collectWith (withC : Option Node) (acc : SSet) : SSet :=
  match withC with
  | some (.withE exprs) => removeCtes exprs acc
  | _ => acc

/-- `WithSchemaTransformer.#collectSchemableIds`: probe the root node's
`name`, `from`, `into`, `table`, `joins` fields in source order,
collecting table names not already in scope, then remove the WITH-bound
names. Non-root constructors have none of the probed fields and collect
nothing. -/
def collectSchemableIds (scope : SSet) : Node → SSet
  | .rootE _ name froms into tbl joins withC _ =>
    collectWith withC
      (collectJoins scope joins
        (collectOptTableExpr scope tbl
          (collectOptTableExpr scope into
            (collectFroms scope froms
              (collectName scope name [])))))
  | _ => []

/-! ## `WithSchemaTransformer`: the traversal

The generic `OperationNodeTransformer` engine is not part of the sources
under verification; per §4.3 of the specification it performs default
structural recursion: dispatch on the node's kind, recursively transform
every child node and child sequence, and rebuild the node. The
`WithSchemaTransformer` overrides two points of it:

  * `transformNodeImpl` — for a root operation node it collects the
    statement's own table names, adds them to the scope set, lets the
    engine recurse, then deletes them again;
  * `transformSchemableIdentifier` — adds the configured schema to a
    bare identifier whose name is in scope.

The mutable `#schemableIds` set is threaded explicitly: every transform
function takes the scope before the call and returns the scope after it. -/

/-- Default `transformIdentifier` of the engine (modelled from the spec):
an `IdentifierNode` has no node children, so it is rebuilt as-is. -/
def transformIdentifierDef (i : IdentifierNode) : IdentifierNode :=
  { name := i.name }

/-- `super.transformSchemableIdentifier` (modelled from the spec): rebuild
with both children transformed. -/
def superTransformSchemableIdentifier (sid : SchemableIdentifierNode) :
    SchemableIdentifierNode :=
  { schema := sid.schema.map transformIdentifierDef
    identifier := transformIdentifierDef sid.identifier }

/-- `WithSchemaTransformer.transformSchemableIdentifier` (from the source):
if the transformed node already has a schema, or the original bare name is
not in the scope set, return the transformed node; otherwise return a copy
with `schema` set to the configured schema. -/
def transformSchemableIdentifierDef (sch : String) (scope : SSet)
    (sid : SchemableIdentifierNode) : SchemableIdentifierNode :=
  let transformed := superTransformSchemableIdentifier sid
  if transformed.schema.isSome || !scopeHas scope sid.identifier.name then
    transformed
  else
    { transformed with schema := some { name := sch } }

/-- Default `transformCommonTableExpressionName` of the engine (modelled
from the spec): rebuild the CTE name, transforming its `TableNode`'s
schemable identifier and its column identifiers. -/
def transformCteName (sch : String) (scope : SSet)
    (nm : CommonTableExpressionNameNode) : CommonTableExpressionNameNode :=
  { table := { table := transformSchemableIdentifierDef sch scope nm.table.table }
    columns := nm.columns.map transformIdentifierDef }

mutual

/-- `WithSchemaTransformer.transformNodeImpl` together with the engine's
default structural recursion (the latter modelled from the spec). For the
two root constructors (`rootE`, `rawE`) the source's bracketing runs:
collect the statement's tables against the current scope, add them, let
the engine rebuild the children, then delete them. All other constructors
are the engine's default per-kind rebuilding, with the scope threaded
left to right through the children. -/
def transformNode (sch : String) (scope : SSet) : Node → Node × SSet
  | .schemableId sid =>
    (.schemableId (transformSchemableIdentifierDef sch scope sid), scope)
  | .tableE t =>
    (.tableE { table := transformSchemableIdentifierDef sch scope t.table }, scope)
  | .aliasE inner a =>
    let p := transformNode sch scope inner
    (.aliasE p.1 (transformIdentifierDef a), p.2)
  | .joinE t onE =>
    let p := transformNode sch scope t
    let q := transformOptNode sch p.2 onE
    (.joinE p.1 q.1, q.2)
  | .cteE nm expr =>
    let p := transformNode sch scope expr
    (.cteE (transformCteName sch scope nm) p.1, p.2)
  | .withE exprs =>
    let p := transformNodeList sch scope exprs
    (.withE p.1, p.2)
  | .rawE frs ps =>
    let tables := collectSchemableIds scope (.rawE frs ps)
    let scope1 := tables.foldl scopeAdd scope
    let p := transformNodeList sch scope1 ps
    (.rawE frs p.1, tables.foldl scopeDel p.2)
  | .rootE k name froms into tbl joins withC others =>
    let tables := collectSchemableIds scope (.rootE k name froms into tbl joins withC others)
    let scope1 := tables.foldl scopeAdd scope
    let pn := transformOptNode sch scope1 name
    let pf := transformOptList sch pn.2 froms
    let pi := transformOptNode sch pf.2 into
    let pt := transformOptNode sch pi.2 tbl
    let pj := transformOptList sch pt.2 joins
    let pw := transformOptNode sch pj.2 withC
    let po := transformNodeList sch pw.2 others
    (.rootE k pn.1 pf.1 pi.1 pt.1 pj.1 pw.1 po.1, tables.foldl scopeDel po.2)
  | .otherE cs =>
    let p := transformNodeList sch scope cs
    (.otherE p.1, p.2)

/-- Engine recursion into an optional child. -/
def transformOptNode (sch : String) (scope : SSet) : Option Node → Option Node × SSet
  | none => (none, scope)
  | some n =>
    let p := transformNode sch scope n
    (some p.1, p.2)

/-- Engine recursion into a child sequence. -/
def transformNodeList (sch : String) (scope : SSet) : List Node → List Node × SSet
  | [] => ([], scope)
  | n :: ns =>
    let p := transformNode sch scope n
    let q := transformNodeList sch p.2 ns
    (p.1 :: q.1, q.2)

/-- Engine recursion into an optional child sequence. -/
def transformOptList (sch : String) (scope : SSet) :
    Option (List Node) → Option (List Node) × SSet
  | none => (none, scope)
  | some ns =>
    let p := transformNodeList sch scope ns
    (some p.1, p.2)

end

/-- A whole traversal by a fresh `WithSchemaTransformer (schema := sch)`:
the scope set starts empty. -/
def withSchemaTransform (sch : String) (n : Node) : Node :=
  (transformNode sch [] n).1

/-! ## Expression normalizer (`parseExpression` / `parseAliasedExpression`)

A JS value reaching the normalizer is modelled by what the dispatch can
observe of it: whether it carries the node-source capability
(`toOperationNode`), whether it is callable, and its `JSON.stringify`
rendering for the error message. -/

/-- Modelled from the spec: `ExpressionBuilder` / `createExpressionBuilder`
are not under the verified sources. The builder is an opaque contextual
handle passed to factory functions. -/
structure ExpressionBuilder where
deriving DecidableEq

/-- Modelled from the spec: "invoke it with a freshly constructed builder
handle" — the constructor call `createExpressionBuilder()`. -/
def createExpressionBuilder : ExpressionBuilder := {}

/-- A value satisfying the Node-Source Protocol: it can produce its
operation node on demand (`toOperationNode`). -/
structure NodeSourceVal where
  toOperationNode : Unit → Node

/-- A value offered to `parseExpression`, as the dispatch observes it:

* `source` — the node-source capability, when the value exposes
  `toOperationNode` (the `isOperationNodeSource` test; modelled from the
  spec, which describes that predicate as "checks presence of this
  capability");
* `callable` — the call behavior, when the value is a function
  (the `isFunction` test); calling it with a builder yields a node-source;
* `serialized` — the `JSON.stringify` rendering of the value. -/
structure ExprInput where
  source : Option NodeSourceVal
  callable : Option (ExpressionBuilder → NodeSourceVal)
  serialized : String

/-- `parseExpression` (from the source), instrumented with the list of
builder handles passed to factory invocations: node-sources win over
functions, a function is invoked with a fresh builder handle, anything
else raises the invalid-expression error. -/
def parseExpression (exp : ExprInput) : Except String Node × List ExpressionBuilder :=
  match exp.source with
  | some s => (.ok (s.toOperationNode ()), [])
  | none =>
    match exp.callable with
    | some f => (.ok ((f createExpressionBuilder).toOperationNode ()), [createExpressionBuilder])
    | none => (.error ("invalid expression: " ++ exp.serialized), [])

/-- A value implementing the `AliasedExpression` interface: an inner
expression and an alias name. Its `toOperationNode` is fixed by the
interface contract (`AliasNode` wrapping the inner expression's node and
an identifier node for the alias). -/
structure AliasedExpressionVal where
  expression : Unit → Node
  aliasName : String

/-- `AliasedExpression.toOperationNode` per the interface contract:
`AliasNode.create(expression.toOperationNode(), IdentifierNode.create(alias))`. -/
def AliasedExpressionVal.toOperationNode (a : AliasedExpressionVal) : Node :=
  .aliasE (a.expression ()) { name := a.aliasName }

/-- A value offered to `parseAliasedExpression`, observed the same way as
`ExprInput`, with the aliased required return shape. -/
structure AliasedExprInput where
  source : Option AliasedExpressionVal
  callable : Option (ExpressionBuilder → AliasedExpressionVal)
  serialized : String

/-- `parseAliasedExpression` (from the source): identical dispatch to
`parseExpression`, aliased required shape, its own error message. -/
def parseAliasedExpression (exp : AliasedExprInput) :
    Except String Node × List ExpressionBuilder :=
  match exp.source with
  | some s => (.ok s.toOperationNode, [])
  | none =>
    match exp.callable with
    | some f => (.ok (f createExpressionBuilder).toOperationNode, [createExpressionBuilder])
    | none => (.error ("invalid aliased expression: " ++ exp.serialized), [])

/-! ## Compiled query artifact (`CompiledQuery.raw`) -/

/-- The opaque per-compilation identifier. -/
structure QueryId where
  queryId : Nat
deriving DecidableEq

/-- Modelled from the spec: `createQueryId` (util/query-id.ts) is not under
the verified sources; the spec says "`queryId` is generated fresh per
compilation (not derived from content)". Fresh generation is modelled by
threading a generator state that yields a new identifier on every call. -/
def createQueryId : Nat → QueryId × Nat :=
  fun n => (⟨n⟩, n + 1)

/-- Modelled from the spec: `RawNode.createWithSql` (raw-node.ts) is not
under the verified sources; the spec says the raw factory produces "a
synthetic Raw root node wrapping that string". -/
def RawNode.createWithSql (sql : String) : Node :=
  .rawE [sql] []

/-- A runtime parameter value (`unknown` in the source). -/
abbrev RuntimeValue := String

/-- The Compiled Query Artifact, per the `CompiledQuery` interface
(variant carrying the `queryId`). -/
structure CompiledQuery where
  query : Node
  queryId : QueryId
  sql : String
  parameters : List RuntimeValue

/-- `CompiledQuery.raw` (from the source, variant with `queryId`): bundle
the string, a raw node wrapping it, a freshly generated query id and an
empty parameter list. The query-id generator state is threaded. -/
def CompiledQuery.raw (sql : String) (st : Nat) : CompiledQuery × Nat :=
  let q := createQueryId st
  ({ sql := sql
     query := RawNode.createWithSql sql
     queryId := q.1
     parameters := [] }, q.2)

/-- The `CompiledQuery` interface of the earlier source variant, which has
no `queryId` field. -/
structure CompiledQueryNoId where
  query : Node
  sql : String
  parameters : List RuntimeValue

/-- `CompiledQuery.raw` of the earlier source variant (no `queryId`). -/
def CompiledQueryNoId.raw (sql : String) : CompiledQueryNoId :=
  { sql := sql
    query := RawNode.createWithSql sql
    parameters := [] }

/-! ## Auxiliary observations used by the claims -/

/-- Whether a normalizer result is the invalid-expression error. -/
def isErrorResult : Except String Node → Bool
  | .error _ => true
  | .ok _ => false

/-- The bare name a table expression resolves to: the claimed resolution
"through an optional Alias wrapper to the underlying Table node". -/
def tableExprName (f : Node) : Option String :=
  (resolveTableExpr f).map (fun t => t.table.identifier.name)

/-- The names bound by a root node's WITH (common-table-expression)
clause. -/
def cteNamesOfRoot : Node → List String
  | .rootE _ _ _ _ _ _ (some (.withE exprs)) _ => exprs.filterMap cteBoundName
  | _ => []

/-- The table name of a JOIN element: `join.table` resolved through an
optional Alias wrapper. -/
def joinTableName : Node → Option String
  | .joinE t _ => tableExprName t
  | _ => none

/-- The set of table names described by the claim for the collection step,
before WITH-clause removal, in the claim's words: the node's own name
field when it is a schemable identifier, every table expression of the
FROM list, the INTO target, the TABLE target and the table of every JOIN,
each resolved through an optional Alias wrapper to an underlying Table
node (anything else contributes nothing). -/
def specSourceNames : Node → List String
  | .rootE _ name froms into tbl joins _ _ =>
    (match name with
     | some (.schemableId sid) => [sid.identifier.name]
     | _ => [])
    ++ (match froms with
        | some fs => fs.filterMap tableExprName
        | none => [])
    ++ (match into with
        | some f => (tableExprName f).toList
        | none => [])
    ++ (match tbl with
        | some f => (tableExprName f).toList
        | none => [])
    ++ (match joins with
        | some js => js.filterMap joinTableName
        | none => [])
  | _ => []

mutual

/-- The bare names of all schemable identifiers anywhere in a tree that
carry a schema qualifier — the "schema-qualified references" a claim
speaks about. -/
def qualifiedNames : Node → List String
  | .schemableId sid =>
    if sid.schema.isSome then [sid.identifier.name] else []
  | .tableE t =>
    if t.table.schema.isSome then [t.table.identifier.name] else []
  | .aliasE inner _ => qualifiedNames inner
  | .joinE t onE => qualifiedNames t ++ qualifiedNamesOpt onE
  | .cteE nm e =>
    (if nm.table.table.schema.isSome then [nm.table.table.identifier.name] else [])
      ++ qualifiedNames e
  | .withE es => qualifiedNamesList es
  | .rawE _ ps => qualifiedNamesList ps
  | .rootE _ name froms into tbl joins withC others =>
    qualifiedNamesOpt name ++ qualifiedNamesOptList froms ++ qualifiedNamesOpt into
      ++ qualifiedNamesOpt tbl ++ qualifiedNamesOptList joins
      ++ qualifiedNamesOpt withC ++ qualifiedNamesList others
  | .otherE cs => qualifiedNamesList cs

/-- `qualifiedNames` over an optional child. -/
def qualifiedNamesOpt : Option Node → List String
  | none => []
  | some n => qualifiedNames n

/-- `qualifiedNames` over a child sequence. -/
def qualifiedNamesList : List Node → List String
  | [] => []
  | n :: ns => qualifiedNames n ++ qualifiedNamesList ns

/-- `qualifiedNames` over an optional child sequence. -/
def qualifiedNamesOptList : Option (List Node) → List String
  | none => []
  | some ns => qualifiedNamesList ns

end

/-! ## Concrete example trees -/

/-- A bare (unqualified) table expression `FROM foo`. -/
def fooTable : Node :=
  .tableE { table := { schema := none, identifier := { name := "foo" } } }

/-- A bare table expression `FROM bar`. -/
def barTable : Node :=
  .tableE { table := { schema := none, identifier := { name := "bar" } } }

/-- The CTE name node binding `foo`. -/
def fooCteName : CommonTableExpressionNameNode :=
  { table := { table := { schema := none, identifier := { name := "foo" } } }
    columns := [] }

/-- `WITH foo AS (SELECT * FROM bar) SELECT * FROM foo` — the
specification's own CTE-exclusion example. -/
def specCteExample : Node :=
  .rootE .selectQuery none (some [fooTable]) none none none
    (some (.withE [.cteE fooCteName
      (.rootE .selectQuery none (some [barTable]) none none none none [])]))
    []

/-- The expected transform of `specCteExample` under schema `s`: `bar` is
qualified, `foo` is untouched everywhere. -/
def specCteExampleExpected : Node :=
  .rootE .selectQuery none (some [fooTable]) none none none
    (some (.withE [.cteE fooCteName
      (.rootE .selectQuery none
        (some [.tableE { table := { schema := some { name := "s" }
                                    identifier := { name := "bar" } } }])
        none none none none [])]))
    []

/-- A subquery `WITH foo AS (SELECT * FROM bar) SELECT * FROM foo` used as
a FROM element of an enclosing query that also reads a real table `foo`. -/
def innerWithFoo : Node :=
  .rootE .selectQuery none (some [fooTable]) none none none
    (some (.withE [.cteE fooCteName
      (.rootE .selectQuery none (some [barTable]) none none none none [])]))
    []

/-- `SELECT * FROM foo, (WITH foo AS (SELECT * FROM bar) SELECT * FROM foo) AS sub`:
the enclosing statement binds `foo` as a real table, the nested statement
binds the same name with its own WITH clause. -/
def nestedCteShadowExample : Node :=
  .rootE .selectQuery none
    (some [fooTable, .aliasE innerWithFoo { name := "sub" }]) none none none none []

/-- What the transformer actually produces for the nested statement of
`nestedCteShadowExample` under schema `s`: because `foo` is already in
scope from the enclosing statement, the nested statement's own WITH-bound
`foo` — both the binder in the CTE name node and the `FROM foo`
reference — is schema-qualified. -/
def innerWithFooTransformed : Node :=
  .rootE .selectQuery none
    (some [.tableE { table := { schema := some { name := "s" }
                                identifier := { name := "foo" } } }])
    none none none
    (some (.withE [.cteE
      { table := { table := { schema := some { name := "s" }
                              identifier := { name := "foo" } } }
        columns := [] }
      (.rootE .selectQuery none
        (some [.tableE { table := { schema := some { name := "s" }
                                    identifier := { name := "bar" } } }])
        none none none none [])]))
    []

/-- The full transform of `nestedCteShadowExample` under schema `s`. -/
def nestedCteShadowExampleTransformed : Node :=
  .rootE .selectQuery none
    (some [.tableE { table := { schema := some { name := "s" }
                                identifier := { name := "foo" } } },
           .aliasE innerWithFooTransformed { name := "sub" }])
    none none none none []

/-! # Lemmas about the scope set -/

theorem scopeHas_true_iff (s : SSet) (x : String) : scopeHas s x = true ↔ x ∈ s := by
  simp [scopeHas]

theorem scopeHas_false_iff (s : SSet) (x : String) : scopeHas s x = false ↔ x ∉ s := by
  simp [scopeHas]

theorem mem_scopeAdd (s : SSet) (x y : String) : y ∈ scopeAdd s x ↔ y ∈ s ∨ y = x := by
  unfold scopeAdd
  split
  · next h => simp; intro hy; subst hy; simpa using h
  · simp

theorem scopeAdd_nodup (s : SSet) (x : String) (h : s.Nodup) : (scopeAdd s x).Nodup := by
  unfold scopeAdd
  split
  · exact h
  · next hc => simp [List.nodup_append, h]; simpa using hc

theorem foldl_scopeAdd_append (ts : List String) (s : SSet)
    (hN : ts.Nodup) (hF : ∀ x ∈ ts, x ∉ s) :
    ts.foldl scopeAdd s = s ++ ts := by
  induction ts generalizing s with
  | nil => simp
  | cons t ts ih =>
    have hadd : scopeAdd s t = s ++ [t] := by
      unfold scopeAdd
      rw [if_neg]
      simpa using hF t (by simp)
    have hN' : ts.Nodup := hN.of_cons
    have hF' : ∀ x ∈ ts, x ∉ s ++ [t] := by
      intro x hx
      simp only [List.mem_append, List.mem_singleton]
      rintro (h | h)
      · exact hF x (by simp [hx]) h
      · subst h
        exact (List.nodup_cons.mp hN).1 hx
    calc (t :: ts).foldl scopeAdd s = ts.foldl scopeAdd (s ++ [t]) := by
          simp [hadd]
      _ = (s ++ [t]) ++ ts := ih (s ++ [t]) hN' hF'
      _ = s ++ t :: ts := by simp

theorem foldl_scopeDel_of_append (ts : List String) (s : SSet)
    (hN : ts.Nodup) (hF : ∀ x ∈ ts, x ∉ s) :
    ts.foldl scopeDel (s ++ ts) = s := by
  induction ts generalizing s with
  | nil => simp
  | cons t ts ih =>
    have hdel : scopeDel (s ++ t :: ts) t = s ++ ts := by
      unfold scopeDel
      rw [List.erase_append_right _ (hF t (by simp))]
      simp
    have hN' : ts.Nodup := hN.of_cons
    have hF' : ∀ x ∈ ts, x ∉ s := fun x hx => hF x (by simp [hx])
    calc (t :: ts).foldl scopeDel (s ++ t :: ts)
        = ts.foldl scopeDel (s ++ ts) := by simp [hdel]
      _ = s := ih s hN' hF'

/-! # Lemmas about the collection step -/

theorem collectSchemableId_nodup_fresh (scope : SSet) (sid : SchemableIdentifierNode)
    (acc : SSet) (hN : acc.Nodup) (hF : ∀ x ∈ acc, x ∉ scope) :
    (collectSchemableId scope sid acc).Nodup ∧
      ∀ x ∈ collectSchemableId scope sid acc, x ∉ scope := by
  unfold collectSchemableId
  split
  · exact ⟨hN, hF⟩
  · next h =>
    refine ⟨scopeAdd_nodup _ _ hN, ?_⟩
    intro x hx
    rcases (mem_scopeAdd _ _ _).mp hx with hx | hx
    · exact hF x hx
    · subst hx
      simpa using (scopeHas_false_iff scope _).mp (by simpa using h)

theorem collectFromTableExpr_nodup_fresh (scope : SSet) (f : Node)
    (acc : SSet) (hN : acc.Nodup) (hF : ∀ x ∈ acc, x ∉ scope) :
    (collectFromTableExpr scope f acc).Nodup ∧
      ∀ x ∈ collectFromTableExpr scope f acc, x ∉ scope := by
  unfold collectFromTableExpr
  split
  · exact collectSchemableId_nodup_fresh _ _ _ hN hF
  · exact ⟨hN, hF⟩

theorem collectFroms_nodup_fresh (scope : SSet) (froms : Option (List Node))
    (acc : SSet) (hN : acc.Nodup) (hF : ∀ x ∈ acc, x ∉ scope) :
    (collectFroms scope froms acc).Nodup ∧
      ∀ x ∈ collectFroms scope froms acc, x ∉ scope := by
  unfold collectFroms
  match froms with
  | none => exact ⟨hN, hF⟩
  | some fs =>
    induction fs generalizing acc with
    | nil => exact ⟨hN, hF⟩
    | cons f fs ih =>
      have h1 := collectFromTableExpr_nodup_fresh scope f acc hN hF
      simpa using ih _ h1.1 h1.2

theorem collectOptTableExpr_nodup_fresh (scope : SSet) (o : Option Node)
    (acc : SSet) (hN : acc.Nodup) (hF : ∀ x ∈ acc, x ∉ scope) :
    (collectOptTableExpr scope o acc).Nodup ∧
      ∀ x ∈ collectOptTableExpr scope o acc, x ∉ scope := by
  unfold collectOptTableExpr
  match o with
  | none => exact ⟨hN, hF⟩
  | some n => exact collectFromTableExpr_nodup_fresh _ _ _ hN hF

theorem collectJoins_nodup_fresh (scope : SSet) (joins : Option (List Node))
    (acc : SSet) (hN : acc.Nodup) (hF : ∀ x ∈ acc, x ∉ scope) :
    (collectJoins scope joins acc).Nodup ∧
      ∀ x ∈ collectJoins scope joins acc, x ∉ scope := by
  unfold collectJoins
  match joins with
  | none => exact ⟨hN, hF⟩
  | some js =>
    induction js generalizing acc with
    | nil => exact ⟨hN, hF⟩
    | cons j js ih =>
      match j with
      | .joinE t onE =>
        have h1 := collectFromTableExpr_nodup_fresh scope t acc hN hF
        simpa using ih _ h1.1 h1.2
      | .schemableId _ => simpa using ih _ hN hF
      | .tableE _ => simpa using ih _ hN hF
      | .aliasE _ _ => simpa using ih _ hN hF
      | .cteE _ _ => simpa using ih _ hN hF
      | .withE _ => simpa using ih _ hN hF
      | .rawE _ _ => simpa using ih _ hN hF
      | .rootE _ _ _ _ _ _ _ _ => simpa using ih _ hN hF
      | .otherE _ => simpa using ih _ hN hF

theorem removeCtes_subset (exprs : List Node) (acc : SSet) :
    ∀ x ∈ removeCtes exprs acc, x ∈ acc := by
  induction exprs generalizing acc with
  | nil => simp [removeCtes]
  | cons e es ih =>
    intro x hx
    have : removeCtes (e :: es) acc =
        removeCtes es (match cteBoundName e with
          | some y => scopeDel acc y
          | none => acc) := by
      simp [removeCtes]
    rw [this] at hx
    have hx' := ih _ x hx
    revert hx'
    split
    · exact fun h => List.erase_subset _ _ h
    · exact id

theorem removeCtes_nodup (exprs : List Node) (acc : SSet) (hN : acc.Nodup) :
    (removeCtes exprs acc).Nodup := by
  induction exprs generalizing acc with
  | nil => simpa [removeCtes] using hN
  | cons e es ih =>
    have : removeCtes (e :: es) acc =
        removeCtes es (match cteBoundName e with
          | some y => scopeDel acc y
          | none => acc) := by
      simp [removeCtes]
    rw [this]
    apply ih
    split
    · exact hN.erase _
    · exact hN

theorem collectWith_nodup_fresh (scope : SSet) (withC : Option Node)
    (acc : SSet) (hN : acc.Nodup) (hF : ∀ x ∈ acc, x ∉ scope) :
    (collectWith withC acc).Nodup ∧ ∀ x ∈ collectWith withC acc, x ∉ scope := by
  unfold collectWith
  split
  · next exprs =>
    exact ⟨removeCtes_nodup _ _ hN, fun x hx => hF x (removeCtes_subset _ _ x hx)⟩
  · exact ⟨hN, hF⟩

theorem collectSchemableIds_nodup_fresh (scope : SSet) (n : Node) :
    (collectSchemableIds scope n).Nodup ∧ ∀ x ∈ collectSchemableIds scope n, x ∉ scope := by
  match n with
  | .rootE k name froms into tbl joins withC others =>
    have h0 : (([] : SSet).Nodup ∧ ∀ x ∈ ([] : SSet), x ∉ scope) := by simp
    have p1 : (collectName scope name []).Nodup ∧
        ∀ x ∈ collectName scope name [], x ∉ scope := by
      unfold collectName
      split
      · exact collectSchemableId_nodup_fresh _ _ _ h0.1 h0.2
      · exact h0
    have p2 := collectFroms_nodup_fresh scope froms _ p1.1 p1.2
    have p3 := collectOptTableExpr_nodup_fresh scope into _ p2.1 p2.2
    have p4 := collectOptTableExpr_nodup_fresh scope tbl _ p3.1 p3.2
    have p5 := collectJoins_nodup_fresh scope joins _ p4.1 p4.2
    have p6 := collectWith_nodup_fresh scope withC _ p5.1 p5.2
    simpa [collectSchemableIds] using p6
  | .schemableId _ => simp [collectSchemableIds]
  | .tableE _ => simp [collectSchemableIds]
  | .aliasE _ _ => simp [collectSchemableIds]
  | .joinE _ _ => simp [collectSchemableIds]
  | .cteE _ _ => simp [collectSchemableIds]
  | .withE _ => simp [collectSchemableIds]
  | .rawE _ _ => simp [collectSchemableIds]
  | .otherE _ => simp [collectSchemableIds]

/-! # The schemable-identifier handler -/

theorem transformIdentifierDef_id (i : IdentifierNode) : transformIdentifierDef i = i := rfl

theorem superTransformSchemableIdentifier_id (sid : SchemableIdentifierNode) :
    superTransformSchemableIdentifier sid = sid := by
  cases sid with
  | mk sc i => cases sc <;> rfl

/-- `transformSchemableIdentifier` keeps the bare identifier. -/
theorem transformSchemableIdentifierDef_identifier (sch : String) (scope : SSet)
    (sid : SchemableIdentifierNode) :
    (transformSchemableIdentifierDef sch scope sid).identifier = sid.identifier := by
  unfold transformSchemableIdentifierDef
  rw [superTransformSchemableIdentifier_id]
  dsimp only
  split <;> rfl

/-- Closed form of `transformSchemableIdentifier`. -/
theorem transformSchemableIdentifierDef_eq (sch : String) (scope : SSet)
    (sid : SchemableIdentifierNode) :
    transformSchemableIdentifierDef sch scope sid =
      if sid.schema.isSome then sid
      else if scopeHas scope sid.identifier.name then
        { schema := some { name := sch }, identifier := sid.identifier }
      else sid := by
  unfold transformSchemableIdentifierDef
  rw [superTransformSchemableIdentifier_id]
  cases h : sid.schema.isSome <;>
    cases h2 : scopeHas scope sid.identifier.name <;>
      simp [h, h2]

/-- `transformSchemableIdentifier` is idempotent at a fixed scope. -/
theorem transformSchemableIdentifierDef_idem (sch : String) (scope : SSet)
    (sid : SchemableIdentifierNode) :
    transformSchemableIdentifierDef sch scope (transformSchemableIdentifierDef sch scope sid) =
      transformSchemableIdentifierDef sch scope sid := by
  rw [transformSchemableIdentifierDef_eq sch scope sid]
  cases h : sid.schema.isSome with
  | true => simp [h, transformSchemableIdentifierDef_eq, h]
  | false =>
    cases h2 : scopeHas scope sid.identifier.name with
    | true => simp [h, h2, transformSchemableIdentifierDef_eq]
    | false => simp [h, h2, transformSchemableIdentifierDef_eq]

/-- C3. For every `SchemableIdentifier` node, the schema-qualification
transformer returns it unchanged when it already carries a schema (an
existing schema is never overwritten), returns a copy with the schema
field set to the configured schema when it carries no schema and its bare
name is in the locally-bound-table scope, and returns it unchanged
otherwise. -/
theorem c3_schemable_identifier_cases (sch : String) (scope : SSet)
    (sid : SchemableIdentifierNode) :
    transformSchemableIdentifierDef sch scope sid =
      if sid.schema.isSome then sid
      else if scopeHas scope sid.identifier.name then
        { schema := some { name := sch }, identifier := sid.identifier }
      else sid :=
  transformSchemableIdentifierDef_eq sch scope sid

/-! # The scope set is restored by every traversal -/

theorem transformNode_snd (sch : String) (scope : SSet) (n : Node) :
    (transformNode sch scope n).2 = scope := by
  refine transformNode.induct sch
    (fun scope n => (transformNode sch scope n).2 = scope)
    (fun scope o => (transformOptList sch scope o).2 = scope)
    (fun scope l => (transformNodeList sch scope l).2 = scope)
    (fun scope o => (transformOptNode sch scope o).2 = scope)
    ?_ ?_ ?_ ?_ ?_ ?_ ?_ ?_ ?_ ?_ ?_ ?_ ?_ ?_ ?_ scope n
  · intro scope sid
    simp [transformNode]
  · intro scope t
    simp [transformNode]
  · intro scope inner a ih
    simp [transformNode, ih]
  · intro scope t onE
    try dsimp only
    intro ih1 ih2
    rw [ih1] at ih2
    simp only [transformNode]
    try dsimp only
    rw [ih1]
    exact ih2
  · intro scope nm expr ih
    simp [transformNode, ih]
  · intro scope exprs ih
    simp [transformNode, ih]
  · intro scope frs ps
    try dsimp only
    intro ih
    have hc : collectSchemableIds scope (Node.rawE frs ps) = [] := rfl
    rw [hc] at ih
    simp only [List.foldl_nil] at ih
    simp only [transformNode]
    try dsimp only
    rw [hc]
    simpa using ih
  · intro scope k name froms into tbl joins withC others
    try dsimp only
    intro ih1 ih2 ih3 ih4 ih5 ih6 ih7
    rw [ih1] at ih2 ih3 ih4 ih5 ih6 ih7
    rw [ih2] at ih3 ih4 ih5 ih6 ih7
    rw [ih3] at ih4 ih5 ih6 ih7
    rw [ih4] at ih5 ih6 ih7
    rw [ih5] at ih6 ih7
    rw [ih6] at ih7
    simp only [transformNode]
    try dsimp only
    rw [ih1, ih2, ih3, ih4, ih5, ih6, ih7]
    obtain ⟨hN, hF⟩ :=
      collectSchemableIds_nodup_fresh scope (.rootE k name froms into tbl joins withC others)
    rw [foldl_scopeAdd_append _ _ hN hF]
    exact foldl_scopeDel_of_append _ _ hN hF
  · intro scope cs ih
    simp [transformNode, ih]
  · intro scope
    simp [transformOptNode]
  · intro scope n ih
    simp [transformOptNode, ih]
  · intro scope
    simp [transformNodeList]
  · intro scope n ns
    try dsimp only
    intro ih1 ih2
    rw [ih1] at ih2
    simp only [transformNodeList]
    try dsimp only
    rw [ih1]
    exact ih2
  · intro scope
    simp [transformOptList]
  · intro scope ns ih
    simp [transformOptList, ih]

theorem transformNodeList_snd (sch : String) (scope : SSet) (l : List Node) :
    (transformNodeList sch scope l).2 = scope := by
  induction l generalizing scope with
  | nil => simp [transformNodeList]
  | cons n ns ih =>
    simp only [transformNodeList]
    try dsimp only
    rw [transformNode_snd]
    exact ih scope

theorem transformOptNode_snd (sch : String) (scope : SSet) (o : Option Node) :
    (transformOptNode sch scope o).2 = scope := by
  cases o with
  | none => rfl
  | some n => simp [transformOptNode, transformNode_snd]

theorem transformOptList_snd (sch : String) (scope : SSet) (o : Option (List Node)) :
    (transformOptList sch scope o).2 = scope := by
  cases o with
  | none => rfl
  | some ns => simp [transformOptList, transformNodeList_snd]

/-- C2. For every node, after `transformNodeImpl` returns, the scope set
is exactly what it was before the call (first conjunct, with the mutable
set threaded as a value); on entering a root node exactly the names
collected for that root — those not already in scope, the collection step
filters the rest — are appended to the scope (second conjunct), and by
the first conjunct applied to the recursion they are exactly the ones
removed on leaving, so bindings from an enclosing level survive the
processing of a nested root node. -/
theorem c2_scope_balanced (sch : String) :
    (∀ scope n, (transformNode sch scope n).2 = scope) ∧
    (∀ scope n, (collectSchemableIds scope n).foldl scopeAdd scope
        = scope ++ collectSchemableIds scope n) := by
  constructor
  · exact fun scope n => transformNode_snd sch scope n
  · intro scope n
    obtain ⟨hN, hF⟩ := collectSchemableIds_nodup_fresh scope n
    exact foldl_scopeAdd_append _ _ hN hF

/-! # Membership characterization of the collection step -/

theorem mem_collectSchemableId (scope : SSet) (sid : SchemableIdentifierNode)
    (acc : SSet) (y : String) :
    y ∈ collectSchemableId scope sid acc ↔
      y ∈ acc ∨ (y = sid.identifier.name ∧ y ∉ scope) := by
  unfold collectSchemableId
  split
  · next h =>
    simp [scopeHas] at h
    constructor
    · exact Or.inl
    · rintro (hy | ⟨rfl, hy⟩)
      · exact hy
      · exact absurd h hy
  · next h =>
    simp [scopeHas] at h
    rw [mem_scopeAdd]
    constructor
    · rintro (hy | rfl)
      · exact Or.inl hy
      · exact Or.inr ⟨rfl, h⟩
    · rintro (hy | ⟨rfl, _⟩)
      · exact Or.inl hy
      · exact Or.inr rfl

theorem mem_collectFromTableExpr (scope : SSet) (f : Node) (acc : SSet) (y : String) :
    y ∈ collectFromTableExpr scope f acc ↔
      y ∈ acc ∨ (tableExprName f = some y ∧ y ∉ scope) := by
  cases hr : resolveTableExpr f with
  | none =>
    have hc : collectFromTableExpr scope f acc = acc := by
      unfold collectFromTableExpr
      rw [hr]
    have ht : tableExprName f = none := by
      unfold tableExprName
      rw [hr]
      rfl
    rw [hc, ht]
    simp
  | some t =>
    have hc : collectFromTableExpr scope f acc = collectSchemableId scope t.table acc := by
      unfold collectFromTableExpr
      rw [hr]
    have ht : tableExprName f = some t.table.identifier.name := by
      unfold tableExprName
      rw [hr]
      rfl
    rw [hc, ht, mem_collectSchemableId]
    constructor
    · rintro (hy | ⟨rfl, hy⟩)
      · exact Or.inl hy
      · exact Or.inr ⟨rfl, hy⟩
    · rintro (hy | ⟨he, hy⟩)
      · exact Or.inl hy
      · cases he
        exact Or.inr ⟨rfl, hy⟩

theorem mem_collectName (scope : SSet) (name : Option Node) (acc : SSet) (y : String) :
    y ∈ collectName scope name acc ↔
      y ∈ acc ∨
        (y ∈ (match name with
              | some (.schemableId sid) => [sid.identifier.name]
              | _ => ([] : List String)) ∧ y ∉ scope) := by
  match name with
  | none =>
    rw [show collectName scope none acc = acc from rfl]
    simp
  | some (.schemableId sid) =>
    have hc : collectName scope (some (.schemableId sid)) acc =
        collectSchemableId scope sid acc := rfl
    rw [hc, mem_collectSchemableId]
    simp
  | some (.tableE t) =>
    rw [show collectName scope (some (.tableE t)) acc = acc from rfl]
    simp
  | some (.aliasE a b) =>
    rw [show collectName scope (some (.aliasE a b)) acc = acc from rfl]
    simp
  | some (.joinE a b) =>
    rw [show collectName scope (some (.joinE a b)) acc = acc from rfl]
    simp
  | some (.cteE a b) =>
    rw [show collectName scope (some (.cteE a b)) acc = acc from rfl]
    simp
  | some (.withE a) =>
    rw [show collectName scope (some (.withE a)) acc = acc from rfl]
    simp
  | some (.rawE a b) =>
    rw [show collectName scope (some (.rawE a b)) acc = acc from rfl]
    simp
  | some (.rootE a b c d e f g h) =>
    rw [show collectName scope (some (.rootE a b c d e f g h)) acc = acc from rfl]
    simp
  | some (.otherE a) =>
    rw [show collectName scope (some (.otherE a)) acc = acc from rfl]
    simp

theorem mem_foldl_collectFrom (scope : SSet) (fs : List Node) (acc : SSet) (y : String) :
    y ∈ fs.foldl (fun acc f => collectFromTableExpr scope f acc) acc ↔
      y ∈ acc ∨ (y ∈ fs.filterMap tableExprName ∧ y ∉ scope) := by
  induction fs generalizing acc with
  | nil => simp
  | cons f fs ih =>
    simp only [List.foldl_cons]
    rw [ih, mem_collectFromTableExpr]
    simp only [List.filterMap_cons]
    cases hf : tableExprName f with
    | none => simp
    | some z =>
      simp only [List.mem_cons]
      constructor
      · rintro ((hy | ⟨he, hs⟩) | ⟨hy, hs⟩)
        · exact Or.inl hy
        · cases he; exact Or.inr ⟨Or.inl rfl, hs⟩
        · exact Or.inr ⟨Or.inr hy, hs⟩
      · rintro (hy | ⟨hy | hy, hs⟩)
        · exact Or.inl (Or.inl hy)
        · subst hy; exact Or.inl (Or.inr ⟨rfl, hs⟩)
        · exact Or.inr ⟨hy, hs⟩

theorem mem_collectFroms (scope : SSet) (froms : Option (List Node))
    (acc : SSet) (y : String) :
    y ∈ collectFroms scope froms acc ↔
      y ∈ acc ∨
        (y ∈ (match froms with
              | some fs => fs.filterMap tableExprName
              | none => ([] : List String)) ∧ y ∉ scope) := by
  match froms with
  | none =>
    rw [show collectFroms scope none acc = acc from rfl]
    simp
  | some fs =>
    have hc : collectFroms scope (some fs) acc =
        fs.foldl (fun acc f => collectFromTableExpr scope f acc) acc := rfl
    rw [hc, mem_foldl_collectFrom]

theorem mem_collectOptTableExpr (scope : SSet) (o : Option Node)
    (acc : SSet) (y : String) :
    y ∈ collectOptTableExpr scope o acc ↔
      y ∈ acc ∨
        (y ∈ (match o with
              | some f => (tableExprName f).toList
              | none => ([] : List String)) ∧ y ∉ scope) := by
  match o with
  | none =>
    rw [show collectOptTableExpr scope none acc = acc from rfl]
    simp
  | some f =>
    have hc : collectOptTableExpr scope (some f) acc =
        collectFromTableExpr scope f acc := rfl
    rw [hc, mem_collectFromTableExpr]
    cases hf : tableExprName f <;> simp [hf, eq_comm]

theorem mem_joinStep (scope : SSet) (acc : SSet) (j : Node) (y : String) :
    y ∈ (match j with
         | .joinE t _ => collectFromTableExpr scope t acc
         | _ => acc) ↔
      y ∈ acc ∨ (joinTableName j = some y ∧ y ∉ scope) := by
  cases j with
  | joinE t onE =>
    rw [show (match Node.joinE t onE with
         | .joinE t _ => collectFromTableExpr scope t acc
         | _ => acc) = collectFromTableExpr scope t acc from rfl]
    rw [mem_collectFromTableExpr]
    simp [joinTableName]
  | schemableId sid => simp [joinTableName]
  | tableE t => simp [joinTableName]
  | aliasE a b => simp [joinTableName]
  | cteE a b => simp [joinTableName]
  | withE a => simp [joinTableName]
  | rawE a b => simp [joinTableName]
  | rootE a b c d e f g h => simp [joinTableName]
  | otherE a => simp [joinTableName]

theorem mem_foldl_collectJoin (scope : SSet) (js : List Node) (acc : SSet) (y : String) :
    y ∈ js.foldl
          (fun acc j =>
            match j with
            | .joinE t _ => collectFromTableExpr scope t acc
            | _ => acc)
          acc ↔
      y ∈ acc ∨ (y ∈ js.filterMap joinTableName ∧ y ∉ scope) := by
  induction js generalizing acc with
  | nil => simp
  | cons j js ih =>
    simp only [List.foldl_cons]
    rw [ih, mem_joinStep]
    simp only [List.filterMap_cons]
    cases hj : joinTableName j with
    | none => simp
    | some z =>
      simp only [List.mem_cons]
      constructor
      · rintro ((hy | ⟨he, hs⟩) | ⟨hy, hs⟩)
        · exact Or.inl hy
        · cases he; exact Or.inr ⟨Or.inl rfl, hs⟩
        · exact Or.inr ⟨Or.inr hy, hs⟩
      · rintro (hy | ⟨hy | hy, hs⟩)
        · exact Or.inl (Or.inl hy)
        · subst hy; exact Or.inl (Or.inr ⟨rfl, hs⟩)
        · exact Or.inr ⟨hy, hs⟩

theorem mem_collectJoins (scope : SSet) (joins : Option (List Node))
    (acc : SSet) (y : String) :
    y ∈ collectJoins scope joins acc ↔
      y ∈ acc ∨
        (y ∈ (match joins with
              | some js => js.filterMap joinTableName
              | none => ([] : List String)) ∧ y ∉ scope) := by
  match joins with
  | none =>
    rw [show collectJoins scope none acc = acc from rfl]
    simp
  | some js =>
    have hc : collectJoins scope (some js) acc =
        js.foldl
          (fun acc j =>
            match j with
            | .joinE t _ => collectFromTableExpr scope t acc
            | _ => acc)
          acc := rfl
    rw [hc, mem_foldl_collectJoin]

theorem mem_removeCtes (exprs : List Node) (acc : SSet) (hN : acc.Nodup) (y : String) :
    y ∈ removeCtes exprs acc ↔ y ∈ acc ∧ y ∉ exprs.filterMap cteBoundName := by
  induction exprs generalizing acc with
  | nil => simp [removeCtes]
  | cons e es ih =>
    have hstep : removeCtes (e :: es) acc =
        removeCtes es (match cteBoundName e with
          | some x => scopeDel acc x
          | none => acc) := by
      simp [removeCtes]
    rw [hstep]
    cases he : cteBoundName e with
    | none =>
      rw [ih acc hN]
      simp [List.filterMap_cons, he]
    | some x =>
      rw [ih (scopeDel acc x) (hN.erase x)]
      unfold scopeDel
      rw [List.Nodup.mem_erase_iff hN]
      simp only [List.filterMap_cons, he, List.mem_cons]
      constructor
      · rintro ⟨⟨hne, hy⟩, hys⟩
        exact ⟨hy, by
          rintro (h | h)
          · exact hne h
          · exact hys h⟩
      · rintro ⟨hy, hys⟩
        exact ⟨⟨fun h => hys (Or.inl h), hy⟩, fun h => hys (Or.inr h)⟩

theorem collect_pre_nodup_fresh (scope : SSet) (name : Option Node)
    (froms : Option (List Node)) (into tbl : Option Node) (joins : Option (List Node)) :
    (collectJoins scope joins
        (collectOptTableExpr scope tbl
          (collectOptTableExpr scope into
            (collectFroms scope froms
              (collectName scope name []))))).Nodup ∧
      ∀ x ∈ collectJoins scope joins
          (collectOptTableExpr scope tbl
            (collectOptTableExpr scope into
              (collectFroms scope froms
                (collectName scope name [])))), x ∉ scope := by
  have h0 : (([] : SSet).Nodup ∧ ∀ x ∈ ([] : SSet), x ∉ scope) := by simp
  have p1 : (collectName scope name []).Nodup ∧
      ∀ x ∈ collectName scope name [], x ∉ scope := by
    unfold collectName
    split
    · exact collectSchemableId_nodup_fresh _ _ _ h0.1 h0.2
    · exact h0
  have p2 := collectFroms_nodup_fresh scope froms _ p1.1 p1.2
  have p3 := collectOptTableExpr_nodup_fresh scope into _ p2.1 p2.2
  have p4 := collectOptTableExpr_nodup_fresh scope tbl _ p3.1 p3.2
  exact collectJoins_nodup_fresh scope joins _ p4.1 p4.2

theorem mem_collect_pre (scope : SSet) (k : RootKind) (name : Option Node)
    (froms : Option (List Node)) (into tbl : Option Node) (joins : Option (List Node))
    (withC : Option Node) (others : List Node) (y : String) :
    y ∈ collectJoins scope joins
          (collectOptTableExpr scope tbl
            (collectOptTableExpr scope into
              (collectFroms scope froms
                (collectName scope name [])))) ↔
      y ∈ specSourceNames (.rootE k name froms into tbl joins withC others) ∧ y ∉ scope := by
  rw [mem_collectJoins, mem_collectOptTableExpr, mem_collectOptTableExpr,
    mem_collectFroms, mem_collectName]
  simp only [List.not_mem_nil, false_or, specSourceNames, List.mem_append]
  tauto

/-- C4. On entering any Root Operation Node with a fresh scope, the set
of table names collected for qualification is exactly the claim's
description: the node's own name field when it is a schemable identifier,
every table expression in its FROM list, its INTO target, its TABLE
target, and the table of every JOIN, each resolved through an optional
Alias wrapper to an underlying Table node, minus the names bound by the
node's WITH clause. -/
theorem c4_collected_set (n : Node) (h : isRootOperationNode n = true) (x : String) :
    x ∈ collectSchemableIds [] n ↔
      x ∈ specSourceNames n ∧ x ∉ cteNamesOfRoot n := by
  match n with
  | .rawE frs ps =>
    simp [collectSchemableIds, specSourceNames]
  | .rootE k name froms into tbl joins withC others =>
    have hN : (collectJoins [] joins
        (collectOptTableExpr [] tbl
          (collectOptTableExpr [] into
            (collectFroms [] froms
              (collectName [] name []))))).Nodup :=
      (collect_pre_nodup_fresh [] name froms into tbl joins).1
    show x ∈ collectWith withC _ ↔ _
    unfold collectWith
    match withC with
    | none =>
      rw [mem_collect_pre ([] : SSet) k name froms into tbl joins none others]
      simp [cteNamesOfRoot]
    | some (.withE exprs) =>
      rw [mem_removeCtes _ _ hN,
        mem_collect_pre ([] : SSet) k name froms into tbl joins (some (.withE exprs)) others]
      simp only [cteNamesOfRoot, List.not_mem_nil, not_false_iff, and_true]
    | some (.schemableId s) =>
      rw [mem_collect_pre ([] : SSet) k name froms into tbl joins (some (.schemableId s)) others]
      simp [cteNamesOfRoot]
    | some (.tableE t) =>
      rw [mem_collect_pre ([] : SSet) k name froms into tbl joins (some (.tableE t)) others]
      simp [cteNamesOfRoot]
    | some (.aliasE a b) =>
      rw [mem_collect_pre ([] : SSet) k name froms into tbl joins (some (.aliasE a b)) others]
      simp [cteNamesOfRoot]
    | some (.joinE a b) =>
      rw [mem_collect_pre ([] : SSet) k name froms into tbl joins (some (.joinE a b)) others]
      simp [cteNamesOfRoot]
    | some (.cteE a b) =>
      rw [mem_collect_pre ([] : SSet) k name froms into tbl joins (some (.cteE a b)) others]
      simp [cteNamesOfRoot]
    | some (.rawE a b) =>
      rw [mem_collect_pre ([] : SSet) k name froms into tbl joins (some (.rawE a b)) others]
      simp [cteNamesOfRoot]
    | some (.rootE a b c d e f g h2) =>
      rw [mem_collect_pre ([] : SSet) k name froms into tbl joins
        (some (.rootE a b c d e f g h2)) others]
      simp [cteNamesOfRoot]
    | some (.otherE a) =>
      rw [mem_collect_pre ([] : SSet) k name froms into tbl joins (some (.otherE a)) others]
      simp [cteNamesOfRoot]

/-- Witness for C4 at a concrete root node: the spec's CTE example
collects `bar`'s statement-level name set correctly — for the outer
statement, `foo` is both a FROM table and a WITH-bound name, so it is not
collected. -/
theorem c4_collected_set_witness :
    isRootOperationNode specCteExample = true ∧
      ("foo" ∈ collectSchemableIds [] specCteExample ↔
        "foo" ∈ specSourceNames specCteExample ∧ "foo" ∉ cteNamesOfRoot specCteExample) :=
  ⟨rfl, c4_collected_set specCteExample rfl "foo"⟩

/-! # C1: CTE-bound names and qualification -/

/-- C1 fails as stated: in `nestedCteShadowExample` the nested statement
`innerWithFoo` binds `foo` with its own WITH clause (second conjunct),
yet because the same name is also bound as a real table by the enclosing
query, the transformer's output (first conjunct) schema-qualifies `foo`
inside the nested statement — both the `FROM foo` reference and the WITH
binder itself carry schema `s` in `innerWithFooTransformed` (third
conjunct). The claim demands that a WITH-bound name is never qualified
inside its statement "including when the same name is also bound as a
real table by an enclosing query"; the code does qualify it in exactly
that situation. -/
theorem c1_cte_shadowing_counterexample :
    withSchemaTransform "s" nestedCteShadowExample = nestedCteShadowExampleTransformed ∧
      "foo" ∈ cteNamesOfRoot innerWithFoo ∧
      "foo" ∈ qualifiedNames innerWithFooTransformed :=
  ⟨rfl, by decide, by decide⟩

/-- C1 (amended). A name bound by a statement's WITH clause is removed
from the set of table names that statement itself inserts into the scope
(first conjunct, for every root node and every scope), so a WITH-bound
name is not qualified through its own statement's bindings; on the spec's
example `WITH foo AS (SELECT * FROM bar) SELECT * FROM foo` run by a
fresh transformer, `bar` is qualified and `foo` is untouched everywhere
(second conjunct). The exclusion does not extend to a binding of the
same name that an enclosing statement's scope already holds, nor to a
nested subquery root that re-collects the name as a real table. -/
theorem c1_amended_cte_exclusion :
    (∀ (scope : SSet) (n : Node) (x : String),
        x ∈ cteNamesOfRoot n → x ∉ collectSchemableIds scope n) ∧
      withSchemaTransform "s" specCteExample = specCteExampleExpected := by
  constructor
  · intro scope n x hx
    match n with
    | .rootE k name froms into tbl joins (some (.withE exprs)) others =>
      rw [show cteNamesOfRoot (.rootE k name froms into tbl joins (some (.withE exprs)) others)
          = exprs.filterMap cteBoundName from rfl] at hx
      rw [show collectSchemableIds scope
            (.rootE k name froms into tbl joins (some (.withE exprs)) others)
          = removeCtes exprs
              (collectJoins scope joins
                (collectOptTableExpr scope tbl
                  (collectOptTableExpr scope into
                    (collectFroms scope froms
                      (collectName scope name []))))) from rfl]
      intro hmem
      rw [mem_removeCtes _ _ (collect_pre_nodup_fresh scope name froms into tbl joins).1] at hmem
      exact hmem.2 hx
    | .rootE k name froms into tbl joins none others => simp [cteNamesOfRoot] at hx
    | .rootE k name froms into tbl joins (some (.schemableId s)) others =>
      rw [show cteNamesOfRoot (.rootE k name froms into tbl joins (some (.schemableId s)) others)
          = [] from rfl] at hx
      exact absurd hx (List.not_mem_nil x)
    | .rootE k name froms into tbl joins (some (.tableE t)) others =>
      rw [show cteNamesOfRoot (.rootE k name froms into tbl joins (some (.tableE t)) others)
          = [] from rfl] at hx
      exact absurd hx (List.not_mem_nil x)
    | .rootE k name froms into tbl joins (some (.aliasE a b)) others =>
      rw [show cteNamesOfRoot (.rootE k name froms into tbl joins (some (.aliasE a b)) others)
          = [] from rfl] at hx
      exact absurd hx (List.not_mem_nil x)
    | .rootE k name froms into tbl joins (some (.joinE a b)) others =>
      rw [show cteNamesOfRoot (.rootE k name froms into tbl joins (some (.joinE a b)) others)
          = [] from rfl] at hx
      exact absurd hx (List.not_mem_nil x)
    | .rootE k name froms into tbl joins (some (.cteE a b)) others =>
      rw [show cteNamesOfRoot (.rootE k name froms into tbl joins (some (.cteE a b)) others)
          = [] from rfl] at hx
      exact absurd hx (List.not_mem_nil x)
    | .rootE k name froms into tbl joins (some (.rawE a b)) others =>
      rw [show cteNamesOfRoot (.rootE k name froms into tbl joins (some (.rawE a b)) others)
          = [] from rfl] at hx
      exact absurd hx (List.not_mem_nil x)
    | .rootE k name froms into tbl joins (some (.rootE a b c d e f g h)) others =>
      rw [show cteNamesOfRoot
            (.rootE k name froms into tbl joins (some (.rootE a b c d e f g h)) others)
          = [] from rfl] at hx
      exact absurd hx (List.not_mem_nil x)
    | .rootE k name froms into tbl joins (some (.otherE a)) others =>
      rw [show cteNamesOfRoot (.rootE k name froms into tbl joins (some (.otherE a)) others)
          = [] from rfl] at hx
      exact absurd hx (List.not_mem_nil x)
    | .schemableId s => simp [cteNamesOfRoot] at hx
    | .tableE t => simp [cteNamesOfRoot] at hx
    | .aliasE a b => simp [cteNamesOfRoot] at hx
    | .joinE a b => simp [cteNamesOfRoot] at hx
    | .cteE a b => simp [cteNamesOfRoot] at hx
    | .withE a => simp [cteNamesOfRoot] at hx
    | .rawE a b => simp [cteNamesOfRoot] at hx
    | .otherE a => simp [cteNamesOfRoot] at hx
  · rfl

/-- Witness for the amended C1 at a concrete statement: `foo` is
WITH-bound by `innerWithFoo` and is indeed not among the names that
statement collects for the scope (fresh transformer scope). -/
theorem c1_amended_cte_exclusion_witness :
    "foo" ∈ cteNamesOfRoot innerWithFoo ∧
      "foo" ∉ collectSchemableIds [] innerWithFoo :=
  ⟨by decide, c1_amended_cte_exclusion.1 [] innerWithFoo "foo" (by decide)⟩

/-! # Transformation preserves everything the collection step reads -/

theorem collectSchemableId_congr (scope acc : SSet) (sid1 sid2 : SchemableIdentifierNode)
    (h : sid1.identifier.name = sid2.identifier.name) :
    collectSchemableId scope sid1 acc = collectSchemableId scope sid2 acc := by
  unfold collectSchemableId
  rw [h]

theorem collectFromTableExpr_transform (sch : String) (sc scope acc : SSet) (f : Node) :
    collectFromTableExpr scope ((transformNode sch sc f).1) acc =
      collectFromTableExpr scope f acc := by
  cases f with
  | tableE t =>
    rw [show (transformNode sch sc (.tableE t)).1
        = .tableE { table := transformSchemableIdentifierDef sch sc t.table } from rfl]
    show collectSchemableId scope (transformSchemableIdentifierDef sch sc t.table) acc
        = collectSchemableId scope t.table acc
    exact collectSchemableId_congr _ _ _ _ (congrArg IdentifierNode.name (transformSchemableIdentifierDef_identifier sch sc t.table))
  | aliasE inner a =>
    rw [show (transformNode sch sc (.aliasE inner a)).1
        = .aliasE (transformNode sch sc inner).1 (transformIdentifierDef a) from rfl]
    cases inner with
    | tableE t =>
      rw [show (transformNode sch sc (.tableE t)).1
          = .tableE { table := transformSchemableIdentifierDef sch sc t.table } from rfl]
      show collectSchemableId scope (transformSchemableIdentifierDef sch sc t.table) acc
          = collectSchemableId scope t.table acc
      exact collectSchemableId_congr _ _ _ _
        (congrArg IdentifierNode.name (transformSchemableIdentifierDef_identifier sch sc t.table))
    | schemableId s => rfl
    | aliasE x y => rfl
    | joinE x y => rfl
    | cteE x y => rfl
    | withE x => rfl
    | rawE x y => rfl
    | rootE a1 a2 a3 a4 a5 a6 a7 a8 => rfl
    | otherE x => rfl
  | schemableId s => rfl
  | joinE x y => rfl
  | cteE x y => rfl
  | withE x => rfl
  | rawE x y => rfl
  | rootE a1 a2 a3 a4 a5 a6 a7 a8 => rfl
  | otherE x => rfl

theorem cteBoundName_transform (sch : String) (sc : SSet) (e : Node) :
    cteBoundName ((transformNode sch sc e).1) = cteBoundName e := by
  cases e with
  | cteE nm x =>
    rw [show (transformNode sch sc (.cteE nm x)).1
        = .cteE (transformCteName sch sc nm) (transformNode sch sc x).1 from rfl]
    show some ((transformSchemableIdentifierDef sch sc nm.table.table).identifier.name)
        = some (nm.table.table.identifier.name)
    rw [transformSchemableIdentifierDef_identifier]
  | schemableId s => rfl
  | tableE t => rfl
  | aliasE x y => rfl
  | joinE x y => rfl
  | withE x => rfl
  | rawE x y => rfl
  | rootE a1 a2 a3 a4 a5 a6 a7 a8 => rfl
  | otherE x => rfl

theorem removeCtes_transform (sch : String) (exprs : List Node) :
    ∀ (sc acc : SSet),
      removeCtes ((transformNodeList sch sc exprs).1) acc = removeCtes exprs acc := by
  induction exprs with
  | nil => intro sc acc; rfl
  | cons e es ih =>
    intro sc acc
    rw [show (transformNodeList sch sc (e :: es)).1
        = (transformNode sch sc e).1
            :: (transformNodeList sch (transformNode sch sc e).2 es).1 from rfl]
    have hstep : ∀ (l : List Node) (a : SSet) (x : Node),
        removeCtes (x :: l) a =
          removeCtes l (match cteBoundName x with
            | some y => scopeDel a y
            | none => a) := by
      intro l a x
      simp [removeCtes]
    rw [hstep, hstep, cteBoundName_transform, ih]

theorem collectName_transform (sch : String) (sc scope acc : SSet) (name : Option Node) :
    collectName scope ((transformOptNode sch sc name).1) acc = collectName scope name acc := by
  cases name with
  | none => rfl
  | some nd =>
    rw [show (transformOptNode sch sc (some nd)).1 = some (transformNode sch sc nd).1 from rfl]
    cases nd with
    | schemableId sid =>
      rw [show (transformNode sch sc (.schemableId sid)).1
          = .schemableId (transformSchemableIdentifierDef sch sc sid) from rfl]
      show collectSchemableId scope (transformSchemableIdentifierDef sch sc sid) acc
          = collectSchemableId scope sid acc
      exact collectSchemableId_congr _ _ _ _
        (congrArg IdentifierNode.name (transformSchemableIdentifierDef_identifier sch sc sid))
    | tableE t => rfl
    | aliasE x y => rfl
    | joinE x y => rfl
    | cteE x y => rfl
    | withE x => rfl
    | rawE x y => rfl
    | rootE a1 a2 a3 a4 a5 a6 a7 a8 => rfl
    | otherE x => rfl

theorem foldl_collectFrom_transform (sch : String) (scope : SSet) (fs : List Node) :
    ∀ (sc acc : SSet),
      ((transformNodeList sch sc fs).1).foldl
          (fun acc f => collectFromTableExpr scope f acc) acc =
        fs.foldl (fun acc f => collectFromTableExpr scope f acc) acc := by
  induction fs with
  | nil => intro sc acc; rfl
  | cons f fs ih =>
    intro sc acc
    rw [show (transformNodeList sch sc (f :: fs)).1
        = (transformNode sch sc f).1
            :: (transformNodeList sch (transformNode sch sc f).2 fs).1 from rfl]
    simp only [List.foldl_cons]
    rw [collectFromTableExpr_transform, ih]

theorem collectFroms_transform (sch : String) (sc scope acc : SSet)
    (froms : Option (List Node)) :
    collectFroms scope ((transformOptList sch sc froms).1) acc =
      collectFroms scope froms acc := by
  cases froms with
  | none => rfl
  | some fs =>
    rw [show (transformOptList sch sc (some fs)).1
        = some (transformNodeList sch sc fs).1 from rfl]
    show ((transformNodeList sch sc fs).1).foldl
        (fun acc f => collectFromTableExpr scope f acc) acc =
      fs.foldl (fun acc f => collectFromTableExpr scope f acc) acc
    exact foldl_collectFrom_transform sch scope fs sc acc

theorem collectOptTableExpr_transform (sch : String) (sc scope acc : SSet)
    (o : Option Node) :
    collectOptTableExpr scope ((transformOptNode sch sc o).1) acc =
      collectOptTableExpr scope o acc := by
  cases o with
  | none => rfl
  | some f =>
    rw [show (transformOptNode sch sc (some f)).1 = some (transformNode sch sc f).1 from rfl]
    show collectFromTableExpr scope ((transformNode sch sc f).1) acc
        = collectFromTableExpr scope f acc
    exact collectFromTableExpr_transform sch sc scope acc f

theorem joinStep_transform (sch : String) (sc scope acc : SSet) (j : Node) :
    (match (transformNode sch sc j).1 with
     | .joinE t _ => collectFromTableExpr scope t acc
     | _ => acc) =
      (match j with
       | .joinE t _ => collectFromTableExpr scope t acc
       | _ => acc) := by
  cases j with
  | joinE t onE =>
    rw [show (transformNode sch sc (.joinE t onE)).1
        = .joinE (transformNode sch sc t).1
            (transformOptNode sch (transformNode sch sc t).2 onE).1 from rfl]
    show collectFromTableExpr scope ((transformNode sch sc t).1) acc
        = collectFromTableExpr scope t acc
    exact collectFromTableExpr_transform sch sc scope acc t
  | schemableId s => rfl
  | tableE t => rfl
  | aliasE x y => rfl
  | cteE x y => rfl
  | withE x => rfl
  | rawE x y => rfl
  | rootE a1 a2 a3 a4 a5 a6 a7 a8 => rfl
  | otherE x => rfl

theorem foldl_collectJoin_transform (sch : String) (scope : SSet) (js : List Node) :
    ∀ (sc acc : SSet),
      ((transformNodeList sch sc js).1).foldl
          (fun acc j =>
            match j with
            | .joinE t _ => collectFromTableExpr scope t acc
            | _ => acc) acc =
        js.foldl
          (fun acc j =>
            match j with
            | .joinE t _ => collectFromTableExpr scope t acc
            | _ => acc) acc := by
  induction js with
  | nil => intro sc acc; rfl
  | cons j js ih =>
    intro sc acc
    rw [show (transformNodeList sch sc (j :: js)).1
        = (transformNode sch sc j).1
            :: (transformNodeList sch (transformNode sch sc j).2 js).1 from rfl]
    simp only [List.foldl_cons]
    rw [joinStep_transform, ih]

theorem collectJoins_transform (sch : String) (sc scope acc : SSet)
    (joins : Option (List Node)) :
    collectJoins scope ((transformOptList sch sc joins).1) acc =
      collectJoins scope joins acc := by
  cases joins with
  | none => rfl
  | some js =>
    rw [show (transformOptList sch sc (some js)).1
        = some (transformNodeList sch sc js).1 from rfl]
    show ((transformNodeList sch sc js).1).foldl
        (fun acc j =>
          match j with
          | .joinE t _ => collectFromTableExpr scope t acc
          | _ => acc) acc = _
    exact foldl_collectJoin_transform sch scope js sc acc

theorem collectWith_transform (sch : String) (sc acc : SSet) (withC : Option Node) :
    collectWith ((transformOptNode sch sc withC).1) acc = collectWith withC acc := by
  cases withC with
  | none => rfl
  | some nd =>
    rw [show (transformOptNode sch sc (some nd)).1 = some (transformNode sch sc nd).1 from rfl]
    cases nd with
    | withE exprs =>
      rw [show (transformNode sch sc (.withE exprs)).1
          = .withE (transformNodeList sch sc exprs).1 from rfl]
      show removeCtes ((transformNodeList sch sc exprs).1) acc = removeCtes exprs acc
      exact removeCtes_transform sch exprs sc acc
    | schemableId s => rfl
    | tableE t => rfl
    | aliasE x y => rfl
    | joinE x y => rfl
    | cteE x y => rfl
    | rawE x y => rfl
    | rootE a1 a2 a3 a4 a5 a6 a7 a8 => rfl
    | otherE x => rfl

theorem collect_fields_transform (sch : String) (scope : SSet)
    (sc1 sc2 sc3 sc4 sc5 sc6 : SSet) (k : RootKind) (name : Option Node)
    (froms : Option (List Node)) (into tbl : Option Node) (joins : Option (List Node))
    (withC : Option Node) (others others2 : List Node) :
    collectSchemableIds scope
        (.rootE k (transformOptNode sch sc1 name).1 (transformOptList sch sc2 froms).1
          (transformOptNode sch sc3 into).1 (transformOptNode sch sc4 tbl).1
          (transformOptList sch sc5 joins).1 (transformOptNode sch sc6 withC).1 others2) =
      collectSchemableIds scope (.rootE k name froms into tbl joins withC others) := by
  show collectWith ((transformOptNode sch sc6 withC).1)
      (collectJoins scope ((transformOptList sch sc5 joins).1)
        (collectOptTableExpr scope ((transformOptNode sch sc4 tbl).1)
          (collectOptTableExpr scope ((transformOptNode sch sc3 into).1)
            (collectFroms scope ((transformOptList sch sc2 froms).1)
              (collectName scope ((transformOptNode sch sc1 name).1) []))))) = _
  rw [collectName_transform, collectFroms_transform, collectOptTableExpr_transform,
    collectOptTableExpr_transform, collectJoins_transform, collectWith_transform]
  rfl

/-! # Idempotence of the schema-qualification transformer -/

theorem collect_rootE (scope : SSet) (k : RootKind) (name : Option Node)
    (froms : Option (List Node)) (into tbl : Option Node) (joins : Option (List Node))
    (withC : Option Node) (others : List Node) :
    collectSchemableIds scope (.rootE k name froms into tbl joins withC others) =
      collectWith withC
        (collectJoins scope joins
          (collectOptTableExpr scope tbl
            (collectOptTableExpr scope into
              (collectFroms scope froms
                (collectName scope name []))))) := rfl

theorem collect_rawE (scope : SSet) (frs : List String) (ps : List Node) :
    collectSchemableIds scope (.rawE frs ps) = [] := rfl

theorem transformIdentifierDef_eq_id : transformIdentifierDef = id :=
  funext (fun _ => rfl)

theorem transformCteName_idem (sch : String) (scope : SSet)
    (nm : CommonTableExpressionNameNode) :
    transformCteName sch scope (transformCteName sch scope nm) =
      transformCteName sch scope nm := by
  unfold transformCteName
  simp only [transformIdentifierDef_eq_id, List.map_id]
  try dsimp only
  rw [transformSchemableIdentifierDef_idem]

theorem transformNode_idem (sch : String) (scope : SSet) (n : Node) :
    transformNode sch scope ((transformNode sch scope n).1) = transformNode sch scope n := by
  refine transformNode.induct sch
    (fun scope n => transformNode sch scope ((transformNode sch scope n).1)
      = transformNode sch scope n)
    (fun scope o => transformOptList sch scope ((transformOptList sch scope o).1)
      = transformOptList sch scope o)
    (fun scope l => transformNodeList sch scope ((transformNodeList sch scope l).1)
      = transformNodeList sch scope l)
    (fun scope o => transformOptNode sch scope ((transformOptNode sch scope o).1)
      = transformOptNode sch scope o)
    ?_ ?_ ?_ ?_ ?_ ?_ ?_ ?_ ?_ ?_ ?_ ?_ ?_ ?_ ?_ scope n
  · intro scope sid
    rw [show (transformNode sch scope (.schemableId sid)).1
        = .schemableId (transformSchemableIdentifierDef sch scope sid) from rfl]
    show (Node.schemableId
        (transformSchemableIdentifierDef sch scope
          (transformSchemableIdentifierDef sch scope sid)), scope)
      = (Node.schemableId (transformSchemableIdentifierDef sch scope sid), scope)
    rw [transformSchemableIdentifierDef_idem]
  · intro scope t
    rw [show (transformNode sch scope (.tableE t)).1
        = .tableE { table := transformSchemableIdentifierDef sch scope t.table } from rfl]
    show (Node.tableE
        { table := transformSchemableIdentifierDef sch scope
            (transformSchemableIdentifierDef sch scope t.table) }, scope)
      = (Node.tableE { table := transformSchemableIdentifierDef sch scope t.table }, scope)
    rw [transformSchemableIdentifierDef_idem]
  · intro scope inner a ih
    rw [show (transformNode sch scope (.aliasE inner a)).1
        = .aliasE (transformNode sch scope inner).1 (transformIdentifierDef a) from rfl]
    show (Node.aliasE
        (transformNode sch scope ((transformNode sch scope inner).1)).1
        (transformIdentifierDef (transformIdentifierDef a)),
      (transformNode sch scope ((transformNode sch scope inner).1)).2)
      = (Node.aliasE (transformNode sch scope inner).1 (transformIdentifierDef a),
        (transformNode sch scope inner).2)
    rw [ih]
    simp only [transformIdentifierDef_eq_id, id]
  · intro scope t onE
    try dsimp only
    intro ih1 ih2
    rw [show (transformNode sch scope (.joinE t onE)).1
        = .joinE (transformNode sch scope t).1
            (transformOptNode sch (transformNode sch scope t).2 onE).1 from rfl]
    show (Node.joinE
        (transformNode sch scope ((transformNode sch scope t).1)).1
        (transformOptNode sch (transformNode sch scope ((transformNode sch scope t).1)).2
          ((transformOptNode sch (transformNode sch scope t).2 onE).1)).1,
      (transformOptNode sch (transformNode sch scope ((transformNode sch scope t).1)).2
          ((transformOptNode sch (transformNode sch scope t).2 onE).1)).2)
      = (Node.joinE (transformNode sch scope t).1
          (transformOptNode sch (transformNode sch scope t).2 onE).1,
        (transformOptNode sch (transformNode sch scope t).2 onE).2)
    rw [ih1, ih2]
  · intro scope nm expr ih
    rw [show (transformNode sch scope (.cteE nm expr)).1
        = .cteE (transformCteName sch scope nm) (transformNode sch scope expr).1 from rfl]
    show (Node.cteE (transformCteName sch scope (transformCteName sch scope nm))
        (transformNode sch scope ((transformNode sch scope expr).1)).1,
      (transformNode sch scope ((transformNode sch scope expr).1)).2)
      = (Node.cteE (transformCteName sch scope nm) (transformNode sch scope expr).1,
        (transformNode sch scope expr).2)
    rw [ih, transformCteName_idem]
  · intro scope exprs ih
    rw [show (transformNode sch scope (.withE exprs)).1
        = .withE (transformNodeList sch scope exprs).1 from rfl]
    show (Node.withE
        (transformNodeList sch scope ((transformNodeList sch scope exprs).1)).1,
      (transformNodeList sch scope ((transformNodeList sch scope exprs).1)).2)
      = (Node.withE (transformNodeList sch scope exprs).1,
        (transformNodeList sch scope exprs).2)
    rw [ih]
  · intro scope frs ps
    try dsimp only
    intro ih
    rw [collect_rawE, List.foldl_nil] at ih
    rw [show (transformNode sch scope (.rawE frs ps)).1
        = .rawE frs (transformNodeList sch scope ps).1 from rfl]
    show (Node.rawE frs
        (transformNodeList sch scope ((transformNodeList sch scope ps).1)).1,
      (collectSchemableIds scope
          (Node.rawE frs (transformNodeList sch scope ps).1)).foldl scopeDel
        (transformNodeList sch scope ((transformNodeList sch scope ps).1)).2)
      = (Node.rawE frs (transformNodeList sch scope ps).1,
        (collectSchemableIds scope (Node.rawE frs ps)).foldl scopeDel
          (transformNodeList sch scope ps).2)
    rw [ih, collect_rawE, collect_rawE]
  · intro scope k name froms into tbl joins withC others
    try dsimp only
    intro ih1 ih2 ih3 ih4 ih5 ih6 ih7
    simp only [collect_rootE] at ih1 ih2 ih3 ih4 ih5 ih6 ih7
    simp only [transformNode, collect_rootE]
    simp only [collectName_transform, collectFroms_transform, collectOptTableExpr_transform,
      collectJoins_transform, collectWith_transform]
    rw [ih1, ih2, ih3, ih4, ih5, ih6, ih7]
  · intro scope cs ih
    rw [show (transformNode sch scope (.otherE cs)).1
        = .otherE (transformNodeList sch scope cs).1 from rfl]
    show (Node.otherE
        (transformNodeList sch scope ((transformNodeList sch scope cs).1)).1,
      (transformNodeList sch scope ((transformNodeList sch scope cs).1)).2)
      = (Node.otherE (transformNodeList sch scope cs).1,
        (transformNodeList sch scope cs).2)
    rw [ih]
  · intro scope
    rfl
  · intro scope n ih
    rw [show (transformOptNode sch scope (some n)).1
        = some (transformNode sch scope n).1 from rfl]
    show (some (transformNode sch scope ((transformNode sch scope n).1)).1,
        (transformNode sch scope ((transformNode sch scope n).1)).2)
      = (some (transformNode sch scope n).1, (transformNode sch scope n).2)
    rw [ih]
  · intro scope
    rfl
  · intro scope n ns
    try dsimp only
    intro ih1 ih2
    rw [show (transformNodeList sch scope (n :: ns)).1
        = (transformNode sch scope n).1
            :: (transformNodeList sch (transformNode sch scope n).2 ns).1 from rfl]
    show ((transformNode sch scope ((transformNode sch scope n).1)).1
        :: (transformNodeList sch (transformNode sch scope ((transformNode sch scope n).1)).2
            ((transformNodeList sch (transformNode sch scope n).2 ns).1)).1,
      (transformNodeList sch (transformNode sch scope ((transformNode sch scope n).1)).2
          ((transformNodeList sch (transformNode sch scope n).2 ns).1)).2)
      = ((transformNode sch scope n).1
          :: (transformNodeList sch (transformNode sch scope n).2 ns).1,
        (transformNodeList sch (transformNode sch scope n).2 ns).2)
    rw [ih1, ih2]
  · intro scope
    rfl
  · intro scope ns ih
    rw [show (transformOptList sch scope (some ns)).1
        = some (transformNodeList sch scope ns).1 from rfl]
    show (some (transformNodeList sch scope ((transformNodeList sch scope ns).1)).1,
        (transformNodeList sch scope ((transformNodeList sch scope ns).1)).2)
      = (some (transformNodeList sch scope ns).1, (transformNodeList sch scope ns).2)
    rw [ih]

/-- C5. For every tree and every schema name, applying the
schema-qualification transformer twice with the same schema yields the
same result as applying it once. -/
theorem c5_idempotent (sch : String) (n : Node) :
    withSchemaTransform sch (withSchemaTransform sch n) = withSchemaTransform sch n := by
  unfold withSchemaTransform
  rw [transformNode_idem]

/-! # The expression normalizer -/

/-- C6. If the input satisfies the Node-Source Protocol, `parseExpression`
returns exactly the node produced by its `toOperationNode` accessor and
invokes no factory; otherwise, if the input is a function, it is invoked
exactly once, with the freshly constructed expression-builder handle, and
the node of its return value is returned (the instrumented second
component lists the builder handle of every factory invocation made). -/
theorem c6_parse_expression_dispatch :
    (∀ (exp : ExprInput) (s : NodeSourceVal), exp.source = some s →
        parseExpression exp = (.ok (s.toOperationNode ()), [])) ∧
      (∀ (exp : ExprInput) (f : ExpressionBuilder → NodeSourceVal),
          exp.source = none → exp.callable = some f →
          parseExpression exp =
            (.ok ((f createExpressionBuilder).toOperationNode ()),
              [createExpressionBuilder])) := by
  constructor
  · intro exp s hs
    unfold parseExpression
    rw [hs]
  · intro exp f hs hf
    unfold parseExpression
    rw [hs, hf]

/-- Witness for C6 at concrete inputs of both accepted shapes. -/
theorem c6_parse_expression_dispatch_witness :
    parseExpression
        { source := some { toOperationNode := fun _ => .otherE [] }
          callable := none
          serialized := "source" } = (.ok (.otherE []), []) ∧
      parseExpression
          { source := none
            callable := some (fun _ => { toOperationNode := fun _ => .otherE [] })
            serialized := "factory" } =
        (.ok (.otherE []), [createExpressionBuilder]) :=
  ⟨c6_parse_expression_dispatch.1 _ _ rfl,
    c6_parse_expression_dispatch.2 _ _ rfl rfl⟩

/-- C7. Both normalizer entry points raise the invalid-expression error
if and only if the input is neither a node-source nor a function, and on
that path the error message is the fixed prefix followed by the
serialized form of the offending value (so the message includes the
serialized value); inputs of either accepted shape never produce the
error from the dispatch itself. -/
theorem c7_invalid_expression_error :
    (∀ exp : ExprInput,
        isErrorResult (parseExpression exp).1 = true ↔
          exp.source = none ∧ exp.callable = none) ∧
      (∀ exp : ExprInput, exp.source = none → exp.callable = none →
          (parseExpression exp).1 = .error ("invalid expression: " ++ exp.serialized)) ∧
      (∀ exp : AliasedExprInput,
          isErrorResult (parseAliasedExpression exp).1 = true ↔
            exp.source = none ∧ exp.callable = none) ∧
      (∀ exp : AliasedExprInput, exp.source = none → exp.callable = none →
          (parseAliasedExpression exp).1 =
            .error ("invalid aliased expression: " ++ exp.serialized)) := by
  refine ⟨?_, ?_, ?_, ?_⟩
  · intro exp
    unfold parseExpression
    cases hs : exp.source with
    | some s => simp [isErrorResult, hs]
    | none =>
      cases hf : exp.callable with
      | some f => simp [isErrorResult, hf]
      | none => simp [isErrorResult, hf]
  · intro exp hs hf
    unfold parseExpression
    rw [hs, hf]
  · intro exp
    unfold parseAliasedExpression
    cases hs : exp.source with
    | some s => simp [isErrorResult, hs]
    | none =>
      cases hf : exp.callable with
      | some f => simp [isErrorResult, hf]
      | none => simp [isErrorResult, hf]
  · intro exp hs hf
    unfold parseAliasedExpression
    rw [hs, hf]

/-- Witness for C7: a value that is neither shape (a plain number,
serialized `3`) errors with the serialized form in the message, and the
error does occur exactly on that shape. -/
theorem c7_invalid_expression_error_witness :
    (parseExpression { source := none, callable := none, serialized := "3" }).1 =
        .error "invalid expression: 3" ∧
      (parseAliasedExpression { source := none, callable := none, serialized := "3" }).1 =
        .error "invalid aliased expression: 3" :=
  ⟨c7_invalid_expression_error.2.1 _ rfl rfl,
    c7_invalid_expression_error.2.2.2 _ rfl rfl⟩

/-- C8. For every accepted input, `parseAliasedExpression` returns an
Alias node wrapping the inner expression's node and an identifier node
for the alias name — directly for an aliased node-source, and through the
factory's result for a factory. -/
theorem c8_aliased_result_shape :
    (∀ (exp : AliasedExprInput) (s : AliasedExpressionVal), exp.source = some s →
        (parseAliasedExpression exp).1 =
          .ok (.aliasE (s.expression ()) { name := s.aliasName })) ∧
      (∀ (exp : AliasedExprInput) (f : ExpressionBuilder → AliasedExpressionVal),
          exp.source = none → exp.callable = some f →
          (parseAliasedExpression exp).1 =
            .ok (.aliasE ((f createExpressionBuilder).expression ())
              { name := (f createExpressionBuilder).aliasName })) := by
  constructor
  · intro exp s hs
    unfold parseAliasedExpression
    rw [hs]
    rfl
  · intro exp f hs hf
    unfold parseAliasedExpression
    rw [hs, hf]
    rfl

/-- Witness for C8 at concrete aliased inputs of both accepted shapes. -/
theorem c8_aliased_result_shape_witness :
    (parseAliasedExpression
        { source := some { expression := fun _ => .otherE [], aliasName := "a" }
          callable := none
          serialized := "src" }).1 =
        .ok (.aliasE (.otherE []) { name := "a" }) ∧
      (parseAliasedExpression
          { source := none
            callable := some
              (fun _ => { expression := fun _ => .otherE [], aliasName := "b" })
            serialized := "fn" }).1 =
        .ok (.aliasE (.otherE []) { name := "b" }) :=
  ⟨c8_aliased_result_shape.1 _ _ rfl, c8_aliased_result_shape.2 _ _ rfl rfl⟩

/-- C10. The node-source test runs before the function test in both entry
points: an input that is simultaneously a function and a node-source is
resolved through its `toOperationNode` accessor and is never invoked as a
factory (no factory invocation is recorded). -/
theorem c10_source_check_first :
    (∀ (exp : ExprInput) (s : NodeSourceVal) (f : ExpressionBuilder → NodeSourceVal),
        exp.source = some s → exp.callable = some f →
        parseExpression exp = (.ok (s.toOperationNode ()), [])) ∧
      (∀ (exp : AliasedExprInput) (s : AliasedExpressionVal)
          (f : ExpressionBuilder → AliasedExpressionVal),
          exp.source = some s → exp.callable = some f →
          parseAliasedExpression exp = (.ok s.toOperationNode, [])) := by
  constructor
  · intro exp s f hs hf
    unfold parseExpression
    rw [hs]
  · intro exp s f hs hf
    unfold parseAliasedExpression
    rw [hs]

/-- Witness for C10 at a concrete input carrying both capabilities. -/
theorem c10_source_check_first_witness :
    parseExpression
        { source := some { toOperationNode := fun _ => .otherE [] }
          callable := some (fun _ => { toOperationNode := fun _ => .rawE ["x"] [] })
          serialized := "both" } = (.ok (.otherE []), []) ∧
      parseAliasedExpression
          { source := some { expression := fun _ => .otherE [], aliasName := "a" }
            callable := some
              (fun _ => { expression := fun _ => .rawE ["x"] [], aliasName := "z" })
            serialized := "both" } =
        (.ok (.aliasE (.otherE []) { name := "a" }), []) :=
  ⟨c10_source_check_first.1 _ _ _ rfl rfl,
    c10_source_check_first.2 _ { expression := fun _ => .otherE [], aliasName := "a" } _
      rfl rfl⟩

/-! # The raw compiled-query factory -/

/-- C9. For every string, `CompiledQuery.raw` produces an artifact with an
empty parameter sequence, a Raw root node wrapping exactly that string
(a root operation node), the string itself as the `sql` field, and a
query id fresh on each call: a subsequent call (on the threaded generator
state) yields a different `queryId`. -/
theorem c9_compiled_query_raw (sql sql2 : String) (st : Nat) :
    (CompiledQuery.raw sql st).1.parameters = [] ∧
      (CompiledQuery.raw sql st).1.query = .rawE [sql] [] ∧
      isRootOperationNode (CompiledQuery.raw sql st).1.query = true ∧
      (CompiledQuery.raw sql st).1.sql = sql ∧
      (CompiledQuery.raw sql2 (CompiledQuery.raw sql st).2).1.queryId ≠
        (CompiledQuery.raw sql st).1.queryId := by
  refine ⟨rfl, rfl, rfl, rfl, ?_⟩
  simp only [CompiledQuery.raw, createQueryId]
  intro h
  have := congrArg QueryId.queryId h
  simp at this

end Kysely
